import Mathlib

/-!
Verification development for the LLMBox Dashscope model component
(`utilization/model/dashscope_model.py`).

The Python code is shallowly embedded as follows.

* Python strings are `List Char` (`Str` below); `prompt[0].split("__SEPARATOR__")`
  is `pySplit`, an executable reimplementation of Python `str.split` with an
  explicit, non-empty separator: it scans left to right, cutting at each
  (non-overlapping) occurrence of the separator, so that `"".split(sep) = [""]`
  and adjacent separators yield empty segments.
* The external API call `dashscope.Generation.call` is an oracle
  `Nat → CallResult` indexed by a global call counter; a call either returns a
  reply (`ok`), returns a non-OK status carrying a message (`err`), or raises a
  transport/parse exception (`exn`).  The `assert msg.status_code == OK`
  statement turns a non-OK status into a caught exception, so both `err` and
  `exn` abort the current round.
* `Dashscope.request` is `request`: a bounded retry loop (`maxTryTimes = 10`)
  over rounds (`runRound`), each round re-initialising `messages = []` and
  `results = []`, appending a user message per non-empty query, issuing the
  call with the full message list, and appending the assistant reply.  For
  verification the embedding additionally logs every issued call (the message
  list and keyword arguments passed to it) and every attempt; this
  instrumentation is ghost state that the Python code does not return.
* `Dashscope.set_generation_args` is `setGenerationArgs`, operating on option
  dictionaries keyed by `GKey`.  Python numeric values are idealised as `Int`
  (`temperature == 0` is modelled as equality with `GVal.int 0`).
* `time.sleep(1)` in the retry handler is recorded as the `sleep` field of the
  attempt log.
-/

/-- Python strings, embedded as lists of characters. -/
abbrev Str := List Char

/-- The reserved multi-turn delimiter `"__SEPARATOR__"`. -/
def SEPARATOR : Str := "__SEPARATOR__".toList

/-- The initial value of the `error_msg` local variable in `Dashscope.request`. -/
def emptyErrorMsg : Str := "EMPTY_ERROR_MSG".toList

/-- Helper for `pySplit`: scan the string left to right; when the remaining
string starts with `SEPARATOR`, cut there and continue after it.  `fuel` only
bounds the recursion; `pySplit` supplies `fuel = s.length`, which suffices
because every step consumes at least one character. -/
def pySplitAux : Nat → Str → Str → List Str
  | _, [], acc => [acc.reverse]
  | 0, s, acc => [acc.reverse ++ s]
  | fuel + 1, c :: rest, acc =>
    if (c :: rest).take SEPARATOR.length = SEPARATOR then
      acc.reverse :: pySplitAux fuel (List.drop (SEPARATOR.length - 1) rest) []
    else
      pySplitAux fuel rest (c :: acc)

/-- Embedding of Python `s.split("__SEPARATOR__")`. -/
def pySplit (s : Str) : List Str := pySplitAux s.length s []

/-- The queries of a round that actually produce a call: the loop body skips a
query `q` with `len(q) == 0` via `continue`. -/
def keptTurns (parts : List Str) : List Str :=
  parts.filter (fun q => !(q.length == 0))

/-- The effective turn prompts extracted from one multi-turn input string:
split on the delimiter, then drop empty segments. -/
def effectiveTurns (s : Str) : List Str := keptTurns (pySplit s)

/-- The string contains an occurrence of the reserved delimiter. -/
def containsSep (s : Str) : Prop := ∃ t u, s = t ++ SEPARATOR ++ u

/-- Message roles used by the request loop. -/
inductive Role where
  | user
  | assistant
  deriving DecidableEq, Repr

/-- A chat message `{"role": ..., "content": ...}`. -/
structure Message where
  role : Role
  content : Str
  deriving DecidableEq, Repr

/-- Outcome of a single `dashscope.Generation.call`: an OK response carrying
the reply content, a non-OK status carrying `msg.message`, or a
transport/parse exception. -/
inductive CallResult where
  | ok (content : Str)
  | err (message : Str)
  | exn
  deriving DecidableEq, Repr

/-- Python option values, with numbers idealised as integers. -/
inductive GVal where
  | int (n : Int)
  | str (s : Str)
  | bool (b : Bool)
  | strList (l : List Str)
  deriving DecidableEq, Repr

/-- The option keys handled by `set_generation_args` (the seven keys of its
loop, plus the derived `seed` entry). -/
inductive GKey where
  | temperature
  | top_p
  | top_k
  | max_tokens
  | repetition_penalty
  | enable_search
  | stop
  | seed
  deriving DecidableEq, Repr

/-- The fields of `ModelArguments` read by `set_generation_args` via
`getattr(self.args, key, None)`, plus `self.args.seed` (always present). -/
structure ModelArgs where
  temperature : Option GVal
  top_p : Option GVal
  top_k : Option GVal
  max_tokens : Option GVal
  repetition_penalty : Option GVal
  enable_search : Option GVal
  stop : Option GVal
  seed : GVal
  deriving DecidableEq, Repr

/-- The `extra_model_args` dictionary entries that `set_generation_args`
can pop: the seven option keys and `multi_turn`. -/
structure ExtraArgs where
  temperature : Option GVal
  top_p : Option GVal
  top_k : Option GVal
  max_tokens : Option GVal
  repetition_penalty : Option GVal
  enable_search : Option GVal
  stop : Option GVal
  multi_turn : Option Bool
  deriving DecidableEq, Repr

/-- The resolved `generation_kwargs` dictionary: each key is present
(`some v`) or absent (`none`). -/
structure GenCfg where
  temperature : Option GVal
  top_p : Option GVal
  top_k : Option GVal
  max_tokens : Option GVal
  repetition_penalty : Option GVal
  enable_search : Option GVal
  stop : Option GVal
  seed : Option GVal
  deriving DecidableEq, Repr

/-- `getattr(self.args, key, None)` (the `seed` attribute always exists). -/
def ModelArgs.get (a : ModelArgs) : GKey → Option GVal
  | GKey.temperature => a.temperature
  | GKey.top_p => a.top_p
  | GKey.top_k => a.top_k
  | GKey.max_tokens => a.max_tokens
  | GKey.repetition_penalty => a.repetition_penalty
  | GKey.enable_search => a.enable_search
  | GKey.stop => a.stop
  | GKey.seed => some a.seed

/-- `extra_model_args.pop(key, None)`; the loop never pops `seed`, so that
entry is irrelevant and modelled as absent. -/
def ExtraArgs.get (e : ExtraArgs) : GKey → Option GVal
  | GKey.temperature => e.temperature
  | GKey.top_p => e.top_p
  | GKey.top_k => e.top_k
  | GKey.max_tokens => e.max_tokens
  | GKey.repetition_penalty => e.repetition_penalty
  | GKey.enable_search => e.enable_search
  | GKey.stop => e.stop
  | GKey.seed => none

/-- Dictionary lookup `generation_kwargs.get(key)`. -/
def GenCfg.get (g : GenCfg) : GKey → Option GVal
  | GKey.temperature => g.temperature
  | GKey.top_p => g.top_p
  | GKey.top_k => g.top_k
  | GKey.max_tokens => g.max_tokens
  | GKey.repetition_penalty => g.repetition_penalty
  | GKey.enable_search => g.enable_search
  | GKey.stop => g.stop
  | GKey.seed => g.seed

/-- Dictionary assignment `generation_kwargs[key] = v`. -/
def GenCfg.set (g : GenCfg) : GKey → GVal → GenCfg
  | GKey.temperature, v => ⟨some v, g.top_p, g.top_k, g.max_tokens, g.repetition_penalty, g.enable_search, g.stop, g.seed⟩
  | GKey.top_p, v => ⟨g.temperature, some v, g.top_k, g.max_tokens, g.repetition_penalty, g.enable_search, g.stop, g.seed⟩
  | GKey.top_k, v => ⟨g.temperature, g.top_p, some v, g.max_tokens, g.repetition_penalty, g.enable_search, g.stop, g.seed⟩
  | GKey.max_tokens, v => ⟨g.temperature, g.top_p, g.top_k, some v, g.repetition_penalty, g.enable_search, g.stop, g.seed⟩
  | GKey.repetition_penalty, v => ⟨g.temperature, g.top_p, g.top_k, g.max_tokens, some v, g.enable_search, g.stop, g.seed⟩
  | GKey.enable_search, v => ⟨g.temperature, g.top_p, g.top_k, g.max_tokens, g.repetition_penalty, some v, g.stop, g.seed⟩
  | GKey.stop, v => ⟨g.temperature, g.top_p, g.top_k, g.max_tokens, g.repetition_penalty, g.enable_search, some v, g.seed⟩
  | GKey.seed, v => ⟨g.temperature, g.top_p, g.top_k, g.max_tokens, g.repetition_penalty, g.enable_search, g.stop, some v⟩

/-- The empty `generation_kwargs` dictionary. -/
def emptyCfg : GenCfg := ⟨none, none, none, none, none, none, none, none⟩

/-- One iteration of the key loop in `set_generation_args`: the value comes
from the model arguments first (`ModelArguments > extra_model_args`), and
`max_tokens` defaults to `1024` when still unset. -/
def resolveKey (args : ModelArgs) (extra : ExtraArgs) (key : GKey) : Option GVal :=
  let value := match args.get key with
    | some v => some v
    | none => extra.get key
  if key = GKey.max_tokens ∧ value = none then some (GVal.int 1024) else value

/-- Store the resolved value for `key` if it is not `None`. -/
def applyKey (args : ModelArgs) (extra : ExtraArgs) (g : GenCfg) (key : GKey) : GenCfg :=
  match resolveKey args extra key with
  | some v => g.set key v
  | none => g

/-- The literal key list iterated by `set_generation_args`. -/
def optionKeys : List GKey :=
  [GKey.temperature, GKey.top_p, GKey.top_k, GKey.max_tokens,
   GKey.repetition_penalty, GKey.enable_search, GKey.stop]

/-- Embedding of `Dashscope.set_generation_args`: resolve each listed option
key, then inject the seed when `generation_kwargs.get("temperature", 1) == 0`.
Returns the resolved `generation_kwargs` and `self.multi_turn`
(`extra_model_args.pop("multi_turn", False)`). -/
def setGenerationArgs (args : ModelArgs) (extra : ExtraArgs) : GenCfg × Bool :=
  let g := optionKeys.foldl (applyKey args extra) emptyCfg
  let g := if (g.get GKey.temperature).getD (GVal.int 1) = GVal.int 0
    then g.set GKey.seed args.seed else g
  (g, extra.multi_turn.getD false)

/-- One issued API call: the `messages` list and the keyword arguments passed
to `dashscope.Generation.call` (ghost log). -/
structure CallRecord where
  messages : List Message
  kwargs : GenCfg
  deriving DecidableEq, Repr

/-- Result of one round (one iteration of the retry loop, i.e. the `try`
body): `success` holds the `results` list when every query was answered,
`calls` logs the issued calls, `finalMessages` is the message list when the
round ended, `errorMsg` is the `error_msg` local, and `nextCounter` is the
oracle counter after the round. -/
structure RoundResult where
  success : Option (List Message)
  calls : List CallRecord
  finalMessages : List Message
  errorMsg : Str
  nextCounter : Nat
  deriving DecidableEq, Repr

/-- The inner `for query in parts` loop of `Dashscope.request`: skip empty
queries, append the user message, issue the call with the full message list,
and on an OK reply record it and append the assistant message; a non-OK
status (which sets `error_msg` and then fails the `assert`) or an exception
aborts the round. -/
def runRound (oracle : Nat → CallResult) (kwargs : GenCfg) :
    List Str → List Message → List Message → Str → Nat → RoundResult
  | [], messages, results, errorMsg, k =>
    ⟨some results, [], messages, errorMsg, k⟩
  | query :: rest, messages, results, errorMsg, k =>
    if query.length = 0 then
      runRound oracle kwargs rest messages results errorMsg k
    else
      let messages1 := messages ++ [⟨Role.user, query⟩]
      match oracle k with
      | CallResult.ok content =>
        let r := runRound oracle kwargs rest (messages1 ++ [⟨Role.assistant, content⟩])
          (results ++ [⟨Role.assistant, content⟩]) errorMsg (k + 1)
        ⟨r.success, ⟨messages1, kwargs⟩ :: r.calls, r.finalMessages, r.errorMsg, r.nextCounter⟩
      | CallResult.err m => ⟨none, [⟨messages1, kwargs⟩], messages1, m, k + 1⟩
      | CallResult.exn => ⟨none, [⟨messages1, kwargs⟩], messages1, errorMsg, k + 1⟩

/-- The per-attempt query list: `prompt[0].split("__SEPARATOR__") if
multi_turn else prompt`.  With `multi_turn` and an empty prompt batch,
`prompt[0]` raises an `IndexError` (caught by the retry handler), modelled
as `none`. -/
def partsFor (multiTurn : Bool) (prompt : List Str) : Option (List Str) :=
  if multiTurn then
    match prompt with
    | [] => none
    | p :: _ => some (pySplit p)
  else
    some prompt

/-- One attempt of the retry loop: `initMessages`/`initResults` record the
`messages = []` and `results = []` initialisations, `outcome` is `some
results` when the `try` body returned, `sleep` records the `time.sleep(1)`
executed by the `except` handler after a failure. -/
structure AttemptResult where
  initMessages : List Message
  initResults : List Message
  outcome : Option (List Message)
  calls : List CallRecord
  finalMessages : List Message
  errorMsg : Str
  sleep : Option Nat
  nextCounter : Nat
  deriving DecidableEq, Repr

/-- Run one attempt (one iteration of `for _ in range(self.max_try_times)`). -/
def runAttempt (oracle : Nat → CallResult) (kwargs : GenCfg)
    (prompt : List Str) (multiTurn : Bool) (k : Nat) : AttemptResult :=
  match partsFor multiTurn prompt with
  | none => ⟨[], [], none, [], [], emptyErrorMsg, some 1, k⟩
  | some parts =>
    let r := runRound oracle kwargs parts [] [] emptyErrorMsg k
    ⟨[], [], r.success, r.calls, r.finalMessages, r.errorMsg,
      if r.success.isSome then none else some 1, r.nextCounter⟩

/-- The only error `Dashscope.request` itself raises:
`ConnectionError("Dashscope API error")` after the retry loop is exhausted. -/
inductive RequestError where
  | connectionError
  deriving DecidableEq, Repr

/-- The retry loop with `tries` iterations left: run an attempt, return its
results on success, otherwise retry; when the budget reaches zero, raise the
terminal `ConnectionError`.  Also returns the ghost log of attempts made. -/
def requestAux (oracle : Nat → CallResult) (kwargs : GenCfg)
    (prompt : List Str) (multiTurn : Bool) :
    Nat → Nat → Except RequestError (List Message) × List AttemptResult
  | _, 0 => (Except.error RequestError.connectionError, [])
  | k, tries + 1 =>
    let a := runAttempt oracle kwargs prompt multiTurn k
    match a.outcome with
    | some results => (Except.ok results, [a])
    | none =>
      let rest := requestAux oracle kwargs prompt multiTurn a.nextCounter tries
      (rest.1, a :: rest.2)

/-- `self.max_try_times = 10`. -/
def maxTryTimes : Nat := 10

/-- Embedding of `Dashscope.request`. -/
def request (oracle : Nat → CallResult) (kwargs : GenCfg)
    (prompt : List Str) (multiTurn : Bool) :
    Except RequestError (List Message) × List AttemptResult :=
  requestAux oracle kwargs prompt multiTurn 0 maxTryTimes

/-- The value returned by `Dashscope.generation`: a list of answer strings in
single-turn mode, or a single aggregated tuple of per-turn answers
(`[tuple(answers)]`) in multi-turn mode. -/
inductive GenOutput where
  | single (answers : List Str)
  | multi (answers : List Str)
  deriving DecidableEq, Repr

/-- Embedding of `Dashscope.generation`: call `request`, extract
`result.content` from each returned message, and aggregate according to
`self.multi_turn`.  An exception from `request` propagates. -/
def generation (oracle : Nat → CallResult) (kwargs : GenCfg)
    (multiTurn : Bool) (batchedInputs : List Str) : Except RequestError GenOutput :=
  match (request oracle kwargs batchedInputs multiTurn).1 with
  | Except.error e => Except.error e
  | Except.ok results =>
    let answers := results.map Message.content
    Except.ok (if multiTurn then GenOutput.multi answers else GenOutput.single answers)

/-- The configuration error raised by `Dashscope.__init__`. -/
inductive ConfigError where
  | missingApiKey
  deriving DecidableEq, Repr

/-- Embedding of the credential check in `Dashscope.__init__`:
`if not args.dashscope_api_key: raise ValueError(...)` — both a missing key
(`None`) and an empty string are falsy. -/
def dashscopeInit (dashscopeApiKey : Option Str) : Except ConfigError Str :=
  match dashscopeApiKey with
  | none => Except.error ConfigError.missingApiKey
  | some key =>
    if key = [] then Except.error ConfigError.missingApiKey else Except.ok key

/-- The role sequence of a message list. -/
def rolesOf (ms : List Message) : List Role := ms.map Message.role

/-- The role list consists of complete user/assistant pairs, in that order. -/
def pairsUA : List Role → Bool
  | [] => true
  | Role.user :: Role.assistant :: rest => pairsUA rest
  | _ => false

/-- The role list strictly alternates user/assistant starting with user,
possibly ending with an unanswered user message. -/
def altUA : List Role → Bool
  | [] => true
  | [Role.user] => true
  | Role.user :: Role.assistant :: rest => altUA rest
  | _ => false



deriving instance DecidableEq for Except

/-- Concrete fixtures used by witnesses and counterexamples. -/
def strA : Str := "A".toList

def strB : Str := "B".toList

def strR : Str := "r".toList

def strX : Str := "x".toList

def strHi : Str := "hi".toList

def strMulti : Str := "A__SEPARATOR__B".toList

/-- An upstream that always answers `"r"`. -/
def oracleOk : Nat → CallResult := fun _ => CallResult.ok strR

/-- An upstream whose very first call raises, then always answers `"r"`. -/
def oracleFailFirst : Nat → CallResult :=
  fun k => if k = 0 then CallResult.exn else CallResult.ok strR

/-- An upstream that always raises. -/
def oracleExn : Nat → CallResult := fun _ => CallResult.exn

def args0 : ModelArgs := ⟨some (GVal.int 0), none, none, none, none, none, none, GVal.int 42⟩

def argsT7 : ModelArgs := ⟨some (GVal.int 7), none, none, none, none, none, none, GVal.int 42⟩

def argsNone : ModelArgs := ⟨none, none, none, none, none, none, none, GVal.int 42⟩

def extra0 : ExtraArgs := ⟨none, none, none, none, none, none, none, none⟩

def extraT9 : ExtraArgs := ⟨some (GVal.int 9), none, none, none, none, none, none, none⟩

def cfgZero : GenCfg := (setGenerationArgs args0 extra0).1

def attemptA : AttemptResult := runAttempt oracleOk emptyCfg [strA] false 0

def attemptAB : AttemptResult := runAttempt oracleOk emptyCfg [strA, strB] false 0

def callAB1 : CallRecord :=
  CallRecord.mk [Message.mk Role.user strA, Message.mk Role.assistant strR,
    Message.mk Role.user strB] emptyCfg

def resAB : List Message := [Message.mk Role.assistant strR, Message.mk Role.assistant strR]

def attemptZ : AttemptResult := runAttempt oracleOk cfgZero [strA] false 0

def callZ : CallRecord := CallRecord.mk [Message.mk Role.user strA] cfgZero

def attemptFail0 : AttemptResult := runAttempt oracleExn emptyCfg [strHi] false 0


theorem containsSep_cons {c : Char} {rest : Str} (h : containsSep rest) :
    containsSep (c :: rest) := by
  obtain ⟨t, u, h⟩ := h
  exact ⟨c :: t, u, by simp [h]⟩

theorem containsSep_of_take {s : Str} (h : s.take SEPARATOR.length = SEPARATOR) :
    containsSep s :=
  ⟨[], List.drop SEPARATOR.length s, by
    conv_lhs => rw [← List.take_append_drop SEPARATOR.length s]
    simp [h]⟩

theorem pySplitAux_no_sep (fuel : Nat) : ∀ (s acc : Str), s.length ≤ fuel →
    ¬ containsSep s → pySplitAux fuel s acc = [acc.reverse ++ s] := by
  induction fuel with
  | zero =>
    intro s acc hlen _
    have hnil : s = [] := List.eq_nil_of_length_eq_zero (Nat.le_zero.mp hlen)
    subst hnil
    simp [pySplitAux]
  | succ fuel ih =>
    intro s acc hlen hs
    match s with
    | [] => simp [pySplitAux]
    | c :: rest =>
      have htake : ¬ ((c :: rest).take SEPARATOR.length = SEPARATOR) :=
        fun h => hs (containsSep_of_take h)
      have hrest : ¬ containsSep rest := fun h => hs (containsSep_cons h)
      have hlen' : rest.length ≤ fuel := by
        simpa using Nat.succ_le_succ_iff.mp (by simpa using hlen)
      rw [pySplitAux, if_neg htake, ih rest (c :: acc) hlen' hrest]
      simp

/-- A string with no occurrence of the delimiter splits into itself alone. -/
theorem pySplit_no_sep {s : Str} (h : ¬ containsSep s) : pySplit s = [s] := by
  simpa using pySplitAux_no_sep s.length s [] (Nat.le_refl _) h

theorem keptTurns_ne_nil {parts : List Str} {t : Str} (h : t ∈ keptTurns parts) :
    t ≠ [] := by
  have := List.of_mem_filter h
  simp at this
  exact this

theorem pairsUA_append_pair : ∀ (l : List Role), pairsUA l = true →
    pairsUA (l ++ [Role.user, Role.assistant]) = true
  | [], _ => rfl
  | Role.user :: Role.assistant :: rest, h => pairsUA_append_pair rest h
  | Role.user :: Role.user :: _, h => by simp [pairsUA] at h
  | [Role.user], h => by simp [pairsUA] at h
  | Role.assistant :: _, h => by simp [pairsUA] at h

theorem altUA_append_user : ∀ (l : List Role), pairsUA l = true →
    altUA (l ++ [Role.user]) = true
  | [], _ => rfl
  | Role.user :: Role.assistant :: rest, h => altUA_append_user rest h
  | Role.user :: Role.user :: _, h => by simp [pairsUA] at h
  | [Role.user], h => by simp [pairsUA] at h
  | Role.assistant :: _, h => by simp [pairsUA] at h

/-- Skipping empty queries inside the loop is the same as filtering them out
beforehand: empty segments produce no message and consume no turn slot. -/
theorem runRound_filter (oracle : Nat → CallResult) (kwargs : GenCfg) :
    ∀ (parts : List Str) (ms rs : List Message) (e : Str) (k : Nat),
    runRound oracle kwargs parts ms rs e k =
      runRound oracle kwargs (keptTurns parts) ms rs e k := by
  intro parts
  induction parts with
  | nil => intro ms rs e k; rfl
  | cons q rest ih =>
    intro ms rs e k
    by_cases hq : q.length = 0
    · have hk : keptTurns (q :: rest) = keptTurns rest := by
        simp [keptTurns, List.filter_cons, hq]
      rw [hk]
      simp only [runRound, if_pos hq]
      exact ih ms rs e k
    · have hk : keptTurns (q :: rest) = q :: keptTurns rest := by
        simp [keptTurns, List.filter_cons, hq]
      rw [hk]
      simp only [runRound, if_neg hq]
      cases ho : oracle k with
      | ok content => simp only [ho]; rw [ih]
      | err m => simp [ho]
      | exn => simp [ho]

/-- The `i`-th issued call of a round sees the initial conversation plus
`2 * i + 1` messages: the `i` completed turns before it and its own user
message. -/
theorem runRound_calls_len (oracle : Nat → CallResult) (kwargs : GenCfg) :
    ∀ (parts : List Str) (ms rs : List Message) (e : Str) (k : Nat)
      (i : Nat) (c : CallRecord),
    (runRound oracle kwargs parts ms rs e k).calls[i]? = some c →
    c.messages.length = ms.length + 2 * i + 1 := by
  intro parts
  induction parts with
  | nil => intro ms rs e k i c h; simp [runRound] at h
  | cons q rest ih =>
    intro ms rs e k i c h
    by_cases hq : q.length = 0
    · simp only [runRound, if_pos hq] at h
      exact ih ms rs e k i c h
    · simp only [runRound, if_neg hq] at h
      cases ho : oracle k with
      | ok content =>
        rw [ho] at h
        match i with
        | 0 =>
          simp at h
          subst h
          simp
        | i + 1 =>
          simp only [List.getElem?_cons_succ] at h
          have := ih (ms ++ [⟨Role.user, q⟩] ++ [⟨Role.assistant, content⟩])
            (rs ++ [⟨Role.assistant, content⟩]) e (k + 1) i c h
          rw [this]
          simp
          omega
      | err m =>
        rw [ho] at h
        match i with
        | 0 =>
          simp at h
          subst h
          simp
        | i + 1 => simp at h
      | exn =>
        rw [ho] at h
        match i with
        | 0 =>
          simp at h
          subst h
          simp
        | i + 1 => simp at h

/-- Every issued call receives exactly the `kwargs` dictionary passed to
`request`. -/
theorem runRound_calls_kwargs (oracle : Nat → CallResult) (kwargs : GenCfg) :
    ∀ (parts : List Str) (ms rs : List Message) (e : Str) (k : Nat),
    ∀ c ∈ (runRound oracle kwargs parts ms rs e k).calls, c.kwargs = kwargs := by
  intro parts
  induction parts with
  | nil => intro ms rs e k c hc; simp [runRound] at hc
  | cons q rest ih =>
    intro ms rs e k c hc
    by_cases hq : q.length = 0
    · simp only [runRound, if_pos hq] at hc
      exact ih ms rs e k c hc
    · simp only [runRound, if_neg hq] at hc
      cases ho : oracle k with
      | ok content =>
        rw [ho] at hc
        simp at hc
        rcases hc with hc | hc
        · rw [hc]
        · exact ih _ _ e (k + 1) c hc
      | err m =>
        rw [ho] at hc
        simp at hc
        rw [hc]
      | exn =>
        rw [ho] at hc
        simp at hc
        rw [hc]

/-- Message lists stay well-formed during a round: starting from a
conversation of complete user/assistant turns, every issued call sees a
strictly alternating conversation ending in its user message, and a
successful round ends with complete turns again. -/
theorem runRound_alt (oracle : Nat → CallResult) (kwargs : GenCfg) :
    ∀ (parts : List Str) (ms rs : List Message) (e : Str) (k : Nat),
    pairsUA (rolesOf ms) = true →
    (∀ c ∈ (runRound oracle kwargs parts ms rs e k).calls,
      altUA (rolesOf c.messages) = true) ∧
    (∀ res, (runRound oracle kwargs parts ms rs e k).success = some res →
      pairsUA (rolesOf (runRound oracle kwargs parts ms rs e k).finalMessages) = true) := by
  intro parts
  induction parts with
  | nil =>
    intro ms rs e k hms
    constructor
    · intro c hc; simp [runRound] at hc
    · intro res _; simpa [runRound] using hms
  | cons q rest ih =>
    intro ms rs e k hms
    have hcall : altUA (rolesOf (ms ++ [⟨Role.user, q⟩])) = true := by
      simpa [rolesOf] using altUA_append_user (rolesOf ms) hms
    by_cases hq : q.length = 0
    · simp only [runRound, if_pos hq]
      exact ih ms rs e k hms
    · simp only [runRound, if_neg hq]
      cases ho : oracle k with
      | ok content =>
        have hnext : pairsUA (rolesOf
            (ms ++ [⟨Role.user, q⟩] ++ [⟨Role.assistant, content⟩])) = true := by
          simpa [rolesOf, List.append_assoc] using
            pairsUA_append_pair (rolesOf ms) hms
        obtain ⟨ihc, ihs⟩ := ih (ms ++ [⟨Role.user, q⟩] ++ [⟨Role.assistant, content⟩])
          (rs ++ [⟨Role.assistant, content⟩]) e (k + 1) hnext
        constructor
        · intro c hc
          rcases List.mem_cons.mp hc with hc | hc
          · rw [hc]; exact hcall
          · exact ihc c hc
        · intro res hres
          exact ihs res hres
      | err m =>
        constructor
        · intro c hc
          rw [List.mem_singleton.mp hc]
          exact hcall
        · intro res hres
          simp at hres
      | exn =>
        constructor
        · intro c hc
          rw [List.mem_singleton.mp hc]
          exact hcall
        · intro res hres
          simp at hres

/-- A round that completes records exactly one reply per non-empty query. -/
theorem runRound_success_results (oracle : Nat → CallResult) (kwargs : GenCfg) :
    ∀ (parts : List Str) (ms rs : List Message) (e : Str) (k : Nat)
      (res : List Message),
    (runRound oracle kwargs parts ms rs e k).success = some res →
    res.length = rs.length + (keptTurns parts).length := by
  intro parts
  induction parts with
  | nil =>
    intro ms rs e k res h
    simp only [runRound] at h
    cases h
    simp [keptTurns]
  | cons q rest ih =>
    intro ms rs e k res h
    by_cases hq : q.length = 0
    · simp only [runRound, if_pos hq] at h
      rw [ih ms rs e k res h]
      simp [keptTurns, List.filter_cons, hq]
    · simp only [runRound, if_neg hq] at h
      cases ho : oracle k with
      | ok content =>
        rw [ho] at h
        have := ih _ (rs ++ [⟨Role.assistant, content⟩]) e (k + 1) res h
        rw [this]
        simp [keptTurns, List.filter_cons, hq]
        omega
      | err m => rw [ho] at h; simp at h
      | exn => rw [ho] at h; simp at h

/-- A round that completes leaves `2 × (number of recorded replies)` new
messages in the conversation. -/
theorem runRound_success_final (oracle : Nat → CallResult) (kwargs : GenCfg) :
    ∀ (parts : List Str) (ms rs : List Message) (e : Str) (k : Nat)
      (res : List Message),
    (runRound oracle kwargs parts ms rs e k).success = some res →
    (runRound oracle kwargs parts ms rs e k).finalMessages.length + 2 * rs.length =
      ms.length + 2 * res.length := by
  intro parts
  induction parts with
  | nil =>
    intro ms rs e k res h
    simp only [runRound] at h ⊢
    cases h
    rfl
  | cons q rest ih =>
    intro ms rs e k res h
    by_cases hq : q.length = 0
    · simp only [runRound, if_pos hq] at h ⊢
      exact ih ms rs e k res h
    · simp only [runRound, if_neg hq] at h ⊢
      cases ho : oracle k with
      | ok content =>
        rw [ho] at h
        have hrec := ih (ms ++ [⟨Role.user, q⟩] ++ [⟨Role.assistant, content⟩])
          (rs ++ [⟨Role.assistant, content⟩]) e (k + 1) res h
        show (runRound oracle kwargs rest
            (ms ++ [⟨Role.user, q⟩] ++ [⟨Role.assistant, content⟩])
            (rs ++ [⟨Role.assistant, content⟩]) e (k + 1)).finalMessages.length +
            2 * rs.length = ms.length + 2 * res.length
        simp only [List.length_append, List.length_cons, List.length_nil] at hrec ⊢
        omega
      | err m => rw [ho] at h; simp at h
      | exn => rw [ho] at h; simp at h

/-- In a completed round, the `i`-th issued call ends with the user message
carrying the `i`-th non-empty query, in order. -/
theorem runRound_success_calls_last (oracle : Nat → CallResult) (kwargs : GenCfg) :
    ∀ (parts : List Str) (ms rs : List Message) (e : Str) (k : Nat)
      (res : List Message),
    (runRound oracle kwargs parts ms rs e k).success = some res →
    (runRound oracle kwargs parts ms rs e k).calls.map
        (fun c => c.messages.getLast?) =
      (keptTurns parts).map (fun q => some (Message.mk Role.user q)) := by
  intro parts
  induction parts with
  | nil =>
    intro ms rs e k res h
    simp [runRound, keptTurns]
  | cons q rest ih =>
    intro ms rs e k res h
    by_cases hq : q.length = 0
    · simp only [runRound, if_pos hq] at h ⊢
      rw [ih ms rs e k res h]
      simp [keptTurns, List.filter_cons, hq]
    · simp only [runRound, if_neg hq] at h ⊢
      cases ho : oracle k with
      | ok content =>
        rw [ho] at h
        have hrec := ih (ms ++ [⟨Role.user, q⟩] ++ [⟨Role.assistant, content⟩])
          (rs ++ [⟨Role.assistant, content⟩]) e (k + 1) res h
        have hkept : keptTurns (q :: rest) = q :: keptTurns rest := by
          simp [keptTurns, List.filter_cons, hq]
        show List.map (fun c => c.messages.getLast?)
            (CallRecord.mk (ms ++ [⟨Role.user, q⟩]) kwargs ::
              (runRound oracle kwargs rest
                (ms ++ [⟨Role.user, q⟩] ++ [⟨Role.assistant, content⟩])
                (rs ++ [⟨Role.assistant, content⟩]) e (k + 1)).calls) =
          List.map (fun q => some (Message.mk Role.user q)) (keptTurns (q :: rest))
        rw [hkept]
        simp only [List.map_cons, hrec]
        simp
      | err m => rw [ho] at h; simp at h
      | exn => rw [ho] at h; simp at h

/-- The first issued call of a round (if any) sees exactly the initial
conversation plus the user message of the first non-empty query. -/
theorem runRound_calls_head (oracle : Nat → CallResult) (kwargs : GenCfg) :
    ∀ (parts : List Str) (ms rs : List Message) (e : Str) (k : Nat)
      (c : CallRecord),
    (runRound oracle kwargs parts ms rs e k).calls[0]? = some c →
    ∃ q, (keptTurns parts).head? = some q ∧
      c.messages = ms ++ [Message.mk Role.user q] := by
  intro parts
  induction parts with
  | nil => intro ms rs e k c h; simp [runRound] at h
  | cons q rest ih =>
    intro ms rs e k c h
    by_cases hq : q.length = 0
    · simp only [runRound, if_pos hq] at h
      have := ih ms rs e k c h
      simpa [keptTurns, List.filter_cons, hq] using this
    · have hkept : keptTurns (q :: rest) = q :: keptTurns rest := by
        simp [keptTurns, List.filter_cons, hq]
      simp only [runRound, if_neg hq] at h
      cases ho : oracle k with
      | ok content =>
        rw [ho] at h
        simp at h
        exact ⟨q, by simp [hkept], by rw [← h]⟩
      | err m =>
        rw [ho] at h
        simp at h
        exact ⟨q, by simp [hkept], by rw [← h]⟩
      | exn =>
        rw [ho] at h
        simp at h
        exact ⟨q, by simp [hkept], by rw [← h]⟩

/-- Every attempt re-executes `messages = []` and `results = []`. -/
theorem runAttempt_init (oracle : Nat → CallResult) (kwargs : GenCfg)
    (prompt : List Str) (multiTurn : Bool) (k : Nat) :
    (runAttempt oracle kwargs prompt multiTurn k).initMessages = [] ∧
    (runAttempt oracle kwargs prompt multiTurn k).initResults = [] := by
  unfold runAttempt
  cases partsFor multiTurn prompt <;> simp

/-- A successful attempt is a successful round on the computed query list,
run from the empty conversation. -/
theorem runAttempt_outcome (oracle : Nat → CallResult) (kwargs : GenCfg)
    (prompt : List Str) (multiTurn : Bool) (k : Nat) (res : List Message)
    (h : (runAttempt oracle kwargs prompt multiTurn k).outcome = some res) :
    ∃ parts, partsFor multiTurn prompt = some parts ∧
      (runRound oracle kwargs parts [] [] emptyErrorMsg k).success = some res ∧
      (runAttempt oracle kwargs prompt multiTurn k).calls =
        (runRound oracle kwargs parts [] [] emptyErrorMsg k).calls ∧
      (runAttempt oracle kwargs prompt multiTurn k).finalMessages =
        (runRound oracle kwargs parts [] [] emptyErrorMsg k).finalMessages := by
  cases hp : partsFor multiTurn prompt with
  | none => simp only [runAttempt, hp] at h; cases h
  | some parts =>
    simp only [runAttempt, hp] at h ⊢
    exact ⟨parts, rfl, h, rfl, rfl⟩

/-- The calls of any attempt are those of a round run from the empty
conversation (or none at all when `prompt[0]` raised). -/
theorem runAttempt_calls_cases (oracle : Nat → CallResult) (kwargs : GenCfg)
    (prompt : List Str) (multiTurn : Bool) (k : Nat) :
    (runAttempt oracle kwargs prompt multiTurn k).calls = [] ∨
    ∃ parts, partsFor multiTurn prompt = some parts ∧
      (runAttempt oracle kwargs prompt multiTurn k).calls =
        (runRound oracle kwargs parts [] [] emptyErrorMsg k).calls := by
  cases hp : partsFor multiTurn prompt with
  | none => left; simp [runAttempt, hp]
  | some parts => right; exact ⟨parts, rfl, by simp [runAttempt, hp]⟩

/-- A failed attempt executes `time.sleep(1)` in its `except` handler. -/
theorem runAttempt_sleep (oracle : Nat → CallResult) (kwargs : GenCfg)
    (prompt : List Str) (multiTurn : Bool) (k : Nat)
    (h : (runAttempt oracle kwargs prompt multiTurn k).outcome = none) :
    (runAttempt oracle kwargs prompt multiTurn k).sleep = some 1 := by
  cases hp : partsFor multiTurn prompt with
  | none => simp [runAttempt, hp]
  | some parts =>
    simp only [runAttempt, hp] at h ⊢
    simp [h]

/-- Every logged attempt is a genuine `runAttempt` execution. -/
theorem requestAux_mem (oracle : Nat → CallResult) (kwargs : GenCfg)
    (prompt : List Str) (multiTurn : Bool) :
    ∀ (tries k : Nat), ∀ a ∈ (requestAux oracle kwargs prompt multiTurn k tries).2,
      ∃ j, a = runAttempt oracle kwargs prompt multiTurn j := by
  intro tries
  induction tries with
  | zero => intro k a ha; simp [requestAux] at ha
  | succ tries ih =>
    intro k a ha
    simp only [requestAux] at ha
    cases ho : (runAttempt oracle kwargs prompt multiTurn k).outcome with
    | some results =>
      rw [ho] at ha
      simp at ha
      exact ⟨k, ha⟩
    | none =>
      rw [ho] at ha
      simp at ha
      rcases ha with ha | ha
      · exact ⟨k, ha⟩
      · exact ih _ a ha

/-- Unfolding equation: a successful attempt ends the loop. -/
theorem requestAux_succ_some (oracle : Nat → CallResult) (kwargs : GenCfg)
    (prompt : List Str) (multiTurn : Bool) (tries k : Nat) (res : List Message)
    (h : (runAttempt oracle kwargs prompt multiTurn k).outcome = some res) :
    requestAux oracle kwargs prompt multiTurn k (tries + 1) =
      (Except.ok res, [runAttempt oracle kwargs prompt multiTurn k]) := by
  simp [requestAux, h]

/-- Unfolding equation: a failed attempt is retried with the rest of the
budget. -/
theorem requestAux_succ_none (oracle : Nat → CallResult) (kwargs : GenCfg)
    (prompt : List Str) (multiTurn : Bool) (tries k : Nat)
    (h : (runAttempt oracle kwargs prompt multiTurn k).outcome = none) :
    requestAux oracle kwargs prompt multiTurn k (tries + 1) =
      ((requestAux oracle kwargs prompt multiTurn
          (runAttempt oracle kwargs prompt multiTurn k).nextCounter tries).1,
        runAttempt oracle kwargs prompt multiTurn k ::
          (requestAux oracle kwargs prompt multiTurn
            (runAttempt oracle kwargs prompt multiTurn k).nextCounter tries).2) := by
  simp [requestAux, h]

/-- A successful `request` comes from a successful logged attempt. -/
theorem requestAux_ok (oracle : Nat → CallResult) (kwargs : GenCfg)
    (prompt : List Str) (multiTurn : Bool) :
    ∀ (tries k : Nat) (res : List Message),
      (requestAux oracle kwargs prompt multiTurn k tries).1 = Except.ok res →
      ∃ a ∈ (requestAux oracle kwargs prompt multiTurn k tries).2,
        a.outcome = some res := by
  intro tries
  induction tries with
  | zero => intro k res h; simp [requestAux] at h
  | succ tries ih =>
    intro k res h
    cases ho : (runAttempt oracle kwargs prompt multiTurn k).outcome with
    | some results =>
      rw [requestAux_succ_some oracle kwargs prompt multiTurn tries k results ho] at h ⊢
      simp at h ⊢
      rw [ho, h]
    | none =>
      rw [requestAux_succ_none oracle kwargs prompt multiTurn tries k ho] at h ⊢
      simp only at h
      obtain ⟨a, ha, hout⟩ := ih _ res h
      refine ⟨a, ?_, hout⟩
      simp only [List.mem_cons]
      exact Or.inr ha

/-- When `request` raises, every logged attempt failed: no partial round and
no per-call failure escapes to the caller. -/
theorem requestAux_error_all (oracle : Nat → CallResult) (kwargs : GenCfg)
    (prompt : List Str) (multiTurn : Bool) :
    ∀ (tries k : Nat) (e : RequestError),
      (requestAux oracle kwargs prompt multiTurn k tries).1 = Except.error e →
      ∀ a ∈ (requestAux oracle kwargs prompt multiTurn k tries).2,
        a.outcome = none := by
  intro tries
  induction tries with
  | zero => intro k e _ a ha; simp [requestAux] at ha
  | succ tries ih =>
    intro k e h a ha
    cases ho : (runAttempt oracle kwargs prompt multiTurn k).outcome with
    | some results =>
      rw [requestAux_succ_some oracle kwargs prompt multiTurn tries k results ho] at h
      simp at h
    | none =>
      rw [requestAux_succ_none oracle kwargs prompt multiTurn tries k ho] at h ha
      simp only at h
      simp only [List.mem_cons] at ha
      rcases ha with ha | ha
      · rw [ha]; exact ho
      · exact ih _ e h a ha

/-- If every attempt fails, the loop runs all `tries` rounds and then raises
the terminal `ConnectionError`. -/
theorem requestAux_all_fail (oracle : Nat → CallResult) (kwargs : GenCfg)
    (prompt : List Str) (multiTurn : Bool) :
    ∀ (tries k : Nat),
      (∀ a ∈ (requestAux oracle kwargs prompt multiTurn k tries).2,
        a.outcome = none) →
      (requestAux oracle kwargs prompt multiTurn k tries).1 =
        Except.error RequestError.connectionError ∧
      (requestAux oracle kwargs prompt multiTurn k tries).2.length = tries := by
  intro tries
  induction tries with
  | zero => intro k _; simp [requestAux]
  | succ tries ih =>
    intro k hall
    cases ho : (runAttempt oracle kwargs prompt multiTurn k).outcome with
    | some results =>
      rw [requestAux_succ_some oracle kwargs prompt multiTurn tries k results ho] at hall
      have := hall (runAttempt oracle kwargs prompt multiTurn k) (by simp)
      rw [ho] at this
      simp at this
    | none =>
      rw [requestAux_succ_none oracle kwargs prompt multiTurn tries k ho] at hall ⊢
      have hall' : ∀ a ∈ (requestAux oracle kwargs prompt multiTurn
          (runAttempt oracle kwargs prompt multiTurn k).nextCounter tries).2,
          a.outcome = none := by
        intro a ha
        refine hall a ?_
        simp only [List.mem_cons]
        exact Or.inr ha
      obtain ⟨h1, h2⟩ := ih _ hall'
      exact ⟨h1, by simp [h2]⟩

/-- A positive retry budget produces at least one attempt. -/
theorem requestAux_ne_nil (oracle : Nat → CallResult) (kwargs : GenCfg)
    (prompt : List Str) (multiTurn : Bool) (tries k : Nat) (h : 0 < tries) :
    (requestAux oracle kwargs prompt multiTurn k tries).2 ≠ [] := by
  match tries, h with
  | tries + 1, _ =>
    cases ho : (runAttempt oracle kwargs prompt multiTurn k).outcome with
    | some results =>
      rw [requestAux_succ_some oracle kwargs prompt multiTurn tries k results ho]
      simp
    | none =>
      rw [requestAux_succ_none oracle kwargs prompt multiTurn tries k ho]
      simp

/-- A failed attempt with budget remaining is followed by another attempt. -/
theorem requestAux_next (oracle : Nat → CallResult) (kwargs : GenCfg)
    (prompt : List Str) (multiTurn : Bool) :
    ∀ (tries k j : Nat) (c : AttemptResult),
      (requestAux oracle kwargs prompt multiTurn k tries).2[j]? = some c →
      c.outcome = none → j + 1 < tries →
      j + 1 < (requestAux oracle kwargs prompt multiTurn k tries).2.length := by
  intro tries
  induction tries with
  | zero => intro k j c hc _ _; simp [requestAux] at hc
  | succ tries ih =>
    intro k j c hc hout hj
    cases ho : (runAttempt oracle kwargs prompt multiTurn k).outcome with
    | some results =>
      rw [requestAux_succ_some oracle kwargs prompt multiTurn tries k results ho] at hc
      match j with
      | 0 =>
        simp at hc
        rw [← hc, ho] at hout
        cases hout
      | j + 1 => simp at hc
    | none =>
      rw [requestAux_succ_none oracle kwargs prompt multiTurn tries k ho] at hc ⊢
      match j with
      | 0 =>
        have hne := requestAux_ne_nil oracle kwargs prompt multiTurn tries
          (runAttempt oracle kwargs prompt multiTurn k).nextCounter (by omega)
        have hpos := List.length_pos.mpr hne
        simp only [List.length_cons]
        omega
      | j + 1 =>
        simp only [List.getElem?_cons_succ] at hc
        have := ih _ j c hc hout (by omega)
        simp only [List.length_cons]
        omega

/-- The dictionary built by the key loop of `set_generation_args`, before the
seed injection. -/
def preCfg (args : ModelArgs) (extra : ExtraArgs) : GenCfg :=
  optionKeys.foldl (applyKey args extra) emptyCfg

theorem GenCfg_set_get_ne (g : GenCfg) (k k' : GKey) (v : GVal) (h : k' ≠ k) :
    (g.set k v).get k' = g.get k' := by
  cases k <;> cases k' <;> simp_all [GenCfg.set, GenCfg.get]

theorem GenCfg_set_get_same (g : GenCfg) (k : GKey) (v : GVal) :
    (g.set k v).get k = some v := by
  cases k <;> simp [GenCfg.set, GenCfg.get]

/-- The key loop stores exactly the resolved value of each listed key and
leaves `seed` unset. -/
theorem preCfg_eq (args : ModelArgs) (extra : ExtraArgs) :
    preCfg args extra =
      ⟨resolveKey args extra GKey.temperature, resolveKey args extra GKey.top_p,
       resolveKey args extra GKey.top_k, resolveKey args extra GKey.max_tokens,
       resolveKey args extra GKey.repetition_penalty,
       resolveKey args extra GKey.enable_search,
       resolveKey args extra GKey.stop, none⟩ := by
  simp only [preCfg, optionKeys, List.foldl, applyKey]
  cases h1 : resolveKey args extra GKey.temperature <;>
    cases h2 : resolveKey args extra GKey.top_p <;>
    cases h3 : resolveKey args extra GKey.top_k <;>
    cases h4 : resolveKey args extra GKey.max_tokens <;>
    cases h5 : resolveKey args extra GKey.repetition_penalty <;>
    cases h6 : resolveKey args extra GKey.enable_search <;>
    cases h7 : resolveKey args extra GKey.stop <;>
    simp [GenCfg.set, emptyCfg]

theorem preCfg_get_eq (args : ModelArgs) (extra : ExtraArgs) (k : GKey)
    (hk : k ≠ GKey.seed) :
    (preCfg args extra).get k = resolveKey args extra k := by
  rw [preCfg_eq]
  cases k
  case seed => exact absurd rfl hk
  all_goals rfl

theorem preCfg_get_seed (args : ModelArgs) (extra : ExtraArgs) :
    (preCfg args extra).get GKey.seed = none := by
  rw [preCfg_eq]
  rfl

/-- Option keys other than `seed` are unaffected by the seed injection. -/
theorem setGenerationArgs_get (args : ModelArgs) (extra : ExtraArgs) (k : GKey)
    (hk : k ≠ GKey.seed) :
    (setGenerationArgs args extra).1.get k = resolveKey args extra k := by
  simp only [setGenerationArgs]
  split
  · rw [GenCfg_set_get_ne _ GKey.seed k args.seed hk]
    exact preCfg_get_eq args extra k hk
  · exact preCfg_get_eq args extra k hk

/-- The seed entry of the resolved configuration. -/
theorem setGenerationArgs_seed (args : ModelArgs) (extra : ExtraArgs) :
    (setGenerationArgs args extra).1.get GKey.seed =
      if (resolveKey args extra GKey.temperature).getD (GVal.int 1) = GVal.int 0
      then some args.seed else none := by
  simp only [setGenerationArgs]
  rw [show (optionKeys.foldl (applyKey args extra) emptyCfg).get GKey.temperature =
      resolveKey args extra GKey.temperature from
    preCfg_get_eq args extra GKey.temperature (by simp)]
  split
  · rw [GenCfg_set_get_same]
  · exact preCfg_get_seed args extra

theorem getD_int_zero_iff (o : Option GVal) :
    o.getD (GVal.int 1) = GVal.int 0 ↔ o = some (GVal.int 0) := by
  cases o <;> simp

/-- Every call of every logged attempt receives exactly the `kwargs` passed to
`request`. -/
theorem request_calls_kwargs (oracle : Nat → CallResult) (kwargs : GenCfg)
    (prompt : List Str) (multiTurn : Bool) :
    ∀ a ∈ (request oracle kwargs prompt multiTurn).2, ∀ c ∈ a.calls,
      c.kwargs = kwargs := by
  intro a ha c hc
  obtain ⟨j, rfl⟩ := requestAux_mem oracle kwargs prompt multiTurn maxTryTimes 0 a ha
  rcases runAttempt_calls_cases oracle kwargs prompt multiTurn j with hnil | ⟨parts, _, hcalls⟩
  · rw [hnil] at hc; simp at hc
  · rw [hcalls] at hc
    exact runRound_calls_kwargs oracle kwargs parts [] [] emptyErrorMsg j c hc

/-- C1: the spec claims that with `multi_turn = False` every prompt of a batch
is handled independently, each request containing only that prompt's own user
message, and a failure on one prompt leaving the others' conversation state
untouched.  The code violates this: `messages` is initialised once per attempt
and shared across the whole batch, so the request for prompt `"B"` of the
batch `["A", "B"]` carries prompt `"A"`'s user message and reply, and a
failure on the first call of `["A", "B"]` aborts the round for both prompts
(`"B"` is never issued in that attempt).  This theorem evaluates the code at
that failing input. -/
theorem C1_eval :
    (((request oracleOk emptyCfg [strA, strB] false).2[0]?).map
        (fun a => a.calls.map CallRecord.messages)) =
      some [[Message.mk Role.user strA],
            [Message.mk Role.user strA, Message.mk Role.assistant strR,
             Message.mk Role.user strB]] ∧
    (((request oracleFailFirst emptyCfg [strA, strB] false).2[0]?).map
        (fun a => a.calls.map CallRecord.messages)) =
      some [[Message.mk Role.user strA]] := by
  decide

/-- C2: after any retryable failure, the next attempt restarts the whole round
from the first turn-prompt: it begins with `messages = []` and `results = []`,
and its first issued call contains exactly one message, the user message of
the first non-empty turn-prompt — nothing from the failed partial round. -/
theorem C2_round_restart (oracle : Nat → CallResult) (kwargs : GenCfg)
    (prompt : List Str) (multiTurn : Bool) :
    ∀ a ∈ (request oracle kwargs prompt multiTurn).2,
      a.initMessages = [] ∧ a.initResults = [] ∧
      ∀ (c : CallRecord), a.calls[0]? = some c →
        ∃ parts q, partsFor multiTurn prompt = some parts ∧
          (keptTurns parts).head? = some q ∧
          c.messages = [Message.mk Role.user q] := by
  intro a ha
  obtain ⟨j, rfl⟩ := requestAux_mem oracle kwargs prompt multiTurn maxTryTimes 0 a ha
  refine ⟨(runAttempt_init oracle kwargs prompt multiTurn j).1,
          (runAttempt_init oracle kwargs prompt multiTurn j).2, ?_⟩
  intro c hc
  rcases runAttempt_calls_cases oracle kwargs prompt multiTurn j with hnil | ⟨parts, hp, hcalls⟩
  · rw [hnil] at hc; simp at hc
  · rw [hcalls] at hc
    obtain ⟨q, hq, hmsg⟩ :=
      runRound_calls_head oracle kwargs parts [] [] emptyErrorMsg j c hc
    exact ⟨parts, q, hp, hq, by simpa using hmsg⟩

/-- Witness for C2 at a concrete input. -/
theorem C2_witness :
    attemptA ∈ (request oracleOk emptyCfg [strA] false).2 ∧
    attemptA.initMessages = [] ∧ attemptA.initResults = [] ∧
    attemptA.calls[0]? = some (CallRecord.mk [Message.mk Role.user strA] emptyCfg) ∧
    ∃ parts q, partsFor false [strA] = some parts ∧
      (keptTurns parts).head? = some q ∧
      (CallRecord.mk [Message.mk Role.user strA] emptyCfg).messages =
        [Message.mk Role.user q] := by
  have h := C2_round_restart oracleOk emptyCfg [strA] false attemptA (by decide)
  exact ⟨by decide, h.1, h.2.1, by decide, h.2.2 _ (by decide)⟩

/-- C3: if the upstream call fails in every attempted round, `request` raises
the single terminal `ConnectionError` — returning no results — after exactly
`max_try_times = 10` rounds. -/
theorem C3_retry_exhausted (oracle : Nat → CallResult) (kwargs : GenCfg)
    (prompt : List Str) (multiTurn : Bool)
    (hfail : ∀ a ∈ (request oracle kwargs prompt multiTurn).2,
      a.outcome = none) :
    (request oracle kwargs prompt multiTurn).1 =
      Except.error RequestError.connectionError ∧
    (request oracle kwargs prompt multiTurn).2.length = maxTryTimes ∧
    maxTryTimes = 10 := by
  obtain ⟨h1, h2⟩ :=
    requestAux_all_fail oracle kwargs prompt multiTurn maxTryTimes 0 hfail
  exact ⟨h1, h2, rfl⟩

/-- Witness for C3: ten consecutive transport failures. -/
theorem C3_witness :
    (∀ a ∈ (request oracleExn emptyCfg [strHi] false).2, a.outcome = none) ∧
    (request oracleExn emptyCfg [strHi] false).1 =
      Except.error RequestError.connectionError ∧
    (request oracleExn emptyCfg [strHi] false).2.length = maxTryTimes ∧
    maxTryTimes = 10 :=
  ⟨by decide, C3_retry_exhausted oracleExn emptyCfg [strHi] false (by decide)⟩

/-- C4 as stated is false: in single-turn mode the answers are not aligned
one-to-one with the input prompts, because an empty prompt is silently
skipped.  With prompts `["", "x"]` and a healthy upstream the call succeeds
with a single answer for two prompts. -/
theorem C4_counterexample :
    generation oracleOk emptyCfg false [[], strX] =
      Except.ok (GenOutput.single [strR]) ∧
    [strR].length ≠ ([([] : Str), strX]).length := by
  decide

/-- C4 amended: for a successful single-turn call, `generation` returns the
answer strings aligned one-to-one, in submission order, with the NON-EMPTY
input prompts (the `i`-th issued call ends with the `i`-th non-empty prompt's
user message); for a successful multi-turn call it returns a single
aggregated sequence with one answer per non-empty turn of the first input
element. -/
theorem C4_amended (oracle : Nat → CallResult) (kwargs : GenCfg)
    (prompt : List Str) :
    (∀ res : List Message,
      (request oracle kwargs prompt false).1 = Except.ok res →
      generation oracle kwargs false prompt =
        Except.ok (GenOutput.single (res.map Message.content)) ∧
      res.length = (keptTurns prompt).length ∧
      ∃ a ∈ (request oracle kwargs prompt false).2,
        a.outcome = some res ∧
        a.calls.map (fun c => c.messages.getLast?) =
          (keptTurns prompt).map (fun q => some (Message.mk Role.user q))) ∧
    (∀ res : List Message,
      (request oracle kwargs prompt true).1 = Except.ok res →
      generation oracle kwargs true prompt =
        Except.ok (GenOutput.multi (res.map Message.content)) ∧
      ∃ p rest, prompt = p :: rest ∧
        res.length = (effectiveTurns p).length) := by
  constructor
  · intro res h
    obtain ⟨a, ha, hout⟩ :=
      requestAux_ok oracle kwargs prompt false maxTryTimes 0 res h
    obtain ⟨j, hj⟩ := requestAux_mem oracle kwargs prompt false maxTryTimes 0 a ha
    subst hj
    obtain ⟨parts, hp, hsucc, hcalls, _⟩ :=
      runAttempt_outcome oracle kwargs prompt false j res hout
    have hparts : parts = prompt := by
      simp [partsFor] at hp
      exact hp.symm
    subst hparts
    refine ⟨by simp [generation, h], ?_, ⟨_, ha, hout, ?_⟩⟩
    · simpa using
        runRound_success_results oracle kwargs parts [] [] emptyErrorMsg j res hsucc
    · rw [hcalls]
      exact runRound_success_calls_last oracle kwargs parts [] [] emptyErrorMsg j res hsucc
  · intro res h
    obtain ⟨a, ha, hout⟩ :=
      requestAux_ok oracle kwargs prompt true maxTryTimes 0 res h
    obtain ⟨j, hj⟩ := requestAux_mem oracle kwargs prompt true maxTryTimes 0 a ha
    subst hj
    obtain ⟨parts, hp, hsucc, _, _⟩ :=
      runAttempt_outcome oracle kwargs prompt true j res hout
    refine ⟨by simp [generation, h], ?_⟩
    cases prompt with
    | nil => simp [partsFor] at hp
    | cons p rest =>
      have hparts : parts = pySplit p := by
        simp [partsFor] at hp
        exact hp.symm
      subst hparts
      refine ⟨p, rest, rfl, ?_⟩
      simpa [effectiveTurns] using
        runRound_success_results oracle kwargs (pySplit p) [] [] emptyErrorMsg j res hsucc

/-- Witness for the amended C4 at concrete inputs, in both modes. -/
theorem C4_witness :
    generation oracleOk emptyCfg false [strA, strB] =
      Except.ok (GenOutput.single [strR, strR]) ∧
    resAB.length = (keptTurns [strA, strB]).length ∧
    generation oracleOk emptyCfg true [strMulti] =
      Except.ok (GenOutput.multi [strR, strR]) ∧
    ∃ p rest, [strMulti] = p :: rest ∧
      resAB.length = (effectiveTurns p).length := by
  have h1 := (C4_amended oracleOk emptyCfg [strA, strB]).1 resAB (by decide)
  have h2 := (C4_amended oracleOk emptyCfg [strMulti]).2 resAB (by decide)
  exact ⟨h1.1, h1.2.1, h2.1, h2.2⟩

/-- A string containing the delimiter is at least as long as the delimiter. -/
theorem containsSep_length {s : Str} (h : containsSep s) :
    SEPARATOR.length ≤ s.length := by
  obtain ⟨t, u, rfl⟩ := h
  simp [List.length_append]
  omega

/-- C5 as stated is false on the empty input: `""` contains no delimiter, yet
the builder yields the empty sequence, not a single-element one. -/
theorem C5_counterexample :
    ¬ containsSep [] ∧ effectiveTurns [] = [] ∧ ([] : List Str).length ≠ 1 := by
  refine ⟨fun h => absurd (containsSep_length h) (by decide), by decide, by decide⟩

/-- C5 amended: the builder splits a multi-turn input on the reserved
delimiter and the loop skips exactly the empty segments (they produce no
message and no call), keeping the non-empty segments in order; a NON-EMPTY
input containing no delimiter degrades, without error, to the single-element
sequence holding the whole input. -/
theorem C5_amended :
    (∀ (oracle : Nat → CallResult) (kwargs : GenCfg) (s : Str)
        (ms rs : List Message) (e : Str) (k : Nat),
      runRound oracle kwargs (pySplit s) ms rs e k =
        runRound oracle kwargs (effectiveTurns s) ms rs e k) ∧
    (∀ s : Str, ∀ t ∈ effectiveTurns s, t ≠ []) ∧
    (∀ s : Str, List.Sublist (effectiveTurns s) (pySplit s)) ∧
    (∀ s : Str, s ≠ [] → ¬ containsSep s →
      pySplit s = [s] ∧ effectiveTurns s = [s]) := by
  refine ⟨?_, ?_, ?_, ?_⟩
  · intro oracle kwargs s ms rs e k
    exact runRound_filter oracle kwargs (pySplit s) ms rs e k
  · intro s t ht
    exact keptTurns_ne_nil ht
  · intro s
    exact List.filter_sublist _
  · intro s hs hsep
    have h1 : pySplit s = [s] := pySplit_no_sep hsep
    refine ⟨h1, ?_⟩
    rw [effectiveTurns, h1]
    simp [keptTurns, List.filter_cons, List.length_eq_zero, hs]

/-- Witness for the amended C5 at concrete inputs. -/
theorem C5_witness :
    strA ≠ [] ∧ ¬ containsSep strA ∧
    pySplit strA = [strA] ∧ effectiveTurns strA = [strA] ∧
    strA ∈ effectiveTurns strA ∧
    List.Sublist (effectiveTurns strMulti) (pySplit strMulti) ∧
    runRound oracleOk emptyCfg (pySplit strMulti) [] [] emptyErrorMsg 0 =
      runRound oracleOk emptyCfg (effectiveTurns strMulti) [] [] emptyErrorMsg 0 := by
  have hns : ¬ containsSep strA :=
    fun h => absurd (containsSep_length h) (by decide)
  have h4 := C5_amended.2.2.2 strA (by decide) hns
  refine ⟨C5_amended.2.1 strA strA (by decide), hns, h4.1, h4.2, ?_, ?_, ?_⟩
  · rw [h4.2]
    simp
  · exact C5_amended.2.2.1 strMulti
  · exact C5_amended.1 oracleOk emptyCfg strMulti [] [] emptyErrorMsg 0

/-- C6: if the resolved temperature equals 0 the resolved configuration —
passed unchanged to every issued call — contains the configured seed
(`self.args.seed`); if the temperature resolves to any other value or is
unset, no seed entry is injected. -/
theorem C6_seed (args : ModelArgs) (extra : ExtraArgs) :
    ((setGenerationArgs args extra).1.get GKey.temperature = some (GVal.int 0) →
      (setGenerationArgs args extra).1.get GKey.seed = some args.seed ∧
      ∀ (oracle : Nat → CallResult) (prompt : List Str) (multiTurn : Bool),
        ∀ a ∈ (request oracle (setGenerationArgs args extra).1 prompt multiTurn).2,
          ∀ c ∈ a.calls, c.kwargs.get GKey.seed = some args.seed) ∧
    ((setGenerationArgs args extra).1.get GKey.temperature ≠ some (GVal.int 0) →
      (setGenerationArgs args extra).1.get GKey.seed = none ∧
      ∀ (oracle : Nat → CallResult) (prompt : List Str) (multiTurn : Bool),
        ∀ a ∈ (request oracle (setGenerationArgs args extra).1 prompt multiTurn).2,
          ∀ c ∈ a.calls, c.kwargs.get GKey.seed = none) := by
  have htemp : (setGenerationArgs args extra).1.get GKey.temperature =
      resolveKey args extra GKey.temperature :=
    setGenerationArgs_get args extra GKey.temperature (by decide)
  have hseed := setGenerationArgs_seed args extra
  constructor
  · intro h0
    have hres : resolveKey args extra GKey.temperature = some (GVal.int 0) := by
      rw [← htemp]; exact h0
    have hs : (setGenerationArgs args extra).1.get GKey.seed = some args.seed := by
      rw [hseed, if_pos ((getD_int_zero_iff _).mpr hres)]
    refine ⟨hs, ?_⟩
    intro oracle prompt multiTurn a ha c hc
    rw [request_calls_kwargs oracle _ prompt multiTurn a ha c hc]
    exact hs
  · intro h0
    have hres : resolveKey args extra GKey.temperature ≠ some (GVal.int 0) := by
      rw [← htemp]; exact h0
    have hs : (setGenerationArgs args extra).1.get GKey.seed = none := by
      rw [hseed, if_neg (fun hcontra => hres ((getD_int_zero_iff _).mp hcontra))]
    refine ⟨hs, ?_⟩
    intro oracle prompt multiTurn a ha c hc
    rw [request_calls_kwargs oracle _ prompt multiTurn a ha c hc]
    exact hs

/-- Witness for C6: temperature 0 injects the seed into the config of an
actually issued call; temperature 7 injects none. -/
theorem C6_witness :
    cfgZero.get GKey.temperature = some (GVal.int 0) ∧
    cfgZero.get GKey.seed = some args0.seed ∧
    attemptZ ∈ (request oracleOk cfgZero [strA] false).2 ∧
    callZ ∈ attemptZ.calls ∧
    callZ.kwargs.get GKey.seed = some args0.seed ∧
    (setGenerationArgs argsT7 extra0).1.get GKey.temperature ≠ some (GVal.int 0) ∧
    (setGenerationArgs argsT7 extra0).1.get GKey.seed = none := by
  have h1 := (C6_seed args0 extra0).1 (by decide)
  have h2 := (C6_seed argsT7 extra0).2 (by decide)
  exact ⟨by decide, h1.1, by decide, by decide,
    h1.2 oracleOk [strA] false attemptZ (by decide) callZ (by decide),
    by decide, h2.1⟩

/-- C7: during every attempt of every request, the `i`-th issued call (the
`i+1`-st turn) sees exactly `2 i + 1` messages — never more than twice the
number of turns issued — strictly alternating user/assistant starting with
user, each assistant message directly following the user message it answers;
on success the final conversation has exactly two messages per recorded
reply, in complete user/assistant pairs. -/
theorem C7_invariant (oracle : Nat → CallResult) (kwargs : GenCfg)
    (prompt : List Str) (multiTurn : Bool) :
    ∀ a ∈ (request oracle kwargs prompt multiTurn).2,
      (∀ (i : Nat) (c : CallRecord), a.calls[i]? = some c →
        c.messages.length = 2 * i + 1 ∧
        c.messages.length ≤ 2 * (i + 1) ∧
        altUA (rolesOf c.messages) = true) ∧
      (∀ res : List Message, a.outcome = some res →
        a.finalMessages.length = 2 * res.length ∧
        pairsUA (rolesOf a.finalMessages) = true) := by
  intro a ha
  obtain ⟨j, hj⟩ := requestAux_mem oracle kwargs prompt multiTurn maxTryTimes 0 a ha
  subst hj
  constructor
  · intro i c hc
    rcases runAttempt_calls_cases oracle kwargs prompt multiTurn j with
      hnil | ⟨parts, _, hcalls⟩
    · rw [hnil] at hc; simp at hc
    · rw [hcalls] at hc
      have hlen := runRound_calls_len oracle kwargs parts [] [] emptyErrorMsg j i c hc
      simp at hlen
      have halt := (runRound_alt oracle kwargs parts [] [] emptyErrorMsg j (by rfl)).1
        c (List.getElem?_mem hc)
      exact ⟨by omega, by omega, halt⟩
  · intro res hres
    obtain ⟨parts, _, hsucc, _, hfin⟩ :=
      runAttempt_outcome oracle kwargs prompt multiTurn j res hres
    have h1 := runRound_success_final oracle kwargs parts [] [] emptyErrorMsg j res hsucc
    have h2 := (runRound_alt oracle kwargs parts [] [] emptyErrorMsg j (by rfl)).2 res hsucc
    rw [hfin]
    simp at h1
    exact ⟨by omega, h2⟩

/-- Witness for C7 at a concrete two-call run. -/
theorem C7_witness :
    attemptAB ∈ (request oracleOk emptyCfg [strA, strB] false).2 ∧
    attemptAB.calls[1]? = some callAB1 ∧
    callAB1.messages.length = 2 * 1 + 1 ∧
    callAB1.messages.length ≤ 2 * (1 + 1) ∧
    altUA (rolesOf callAB1.messages) = true ∧
    attemptAB.outcome = some resAB ∧
    attemptAB.finalMessages.length = 2 * resAB.length ∧
    pairsUA (rolesOf attemptAB.finalMessages) = true := by
  have h := C7_invariant oracleOk emptyCfg [strA, strB] false attemptAB (by decide)
  have h1 := h.1 1 callAB1 (by decide)
  have h2 := h.2 resAB (by decide)
  exact ⟨by decide, by decide, h1.1, h1.2.1, h1.2.2, by decide, h2.1, h2.2⟩

/-- C8: every single-call failure is handled inside the retry loop — the
failed attempt sleeps for the fixed backoff of 1 time unit and, while budget
remains, is followed by another attempt — and is never surfaced individually:
the only error `request` can raise is the terminal `ConnectionError`, raised
exactly when every attempt failed, and the only error of construction is the
missing-credential `ValueError`. -/
theorem C8_propagation :
    (∀ (oracle : Nat → CallResult) (kwargs : GenCfg) (prompt : List Str)
        (multiTurn : Bool) (j : Nat) (a : AttemptResult),
      (request oracle kwargs prompt multiTurn).2[j]? = some a →
      a.outcome = none →
      a.sleep = some 1 ∧
      (j + 1 < maxTryTimes →
        j + 1 < (request oracle kwargs prompt multiTurn).2.length)) ∧
    (∀ (oracle : Nat → CallResult) (kwargs : GenCfg) (prompt : List Str)
        (multiTurn : Bool) (e : RequestError),
      (request oracle kwargs prompt multiTurn).1 = Except.error e →
      e = RequestError.connectionError ∧
      ∀ a ∈ (request oracle kwargs prompt multiTurn).2, a.outcome = none) ∧
    (∀ key : Option Str,
      dashscopeInit key = Except.error ConfigError.missingApiKey ↔
        (key = none ∨ key = some [])) := by
  refine ⟨?_, ?_, ?_⟩
  · intro oracle kwargs prompt multiTurn j a hj hout
    constructor
    · obtain ⟨i, hi⟩ := requestAux_mem oracle kwargs prompt multiTurn maxTryTimes 0 a
        (List.getElem?_mem hj)
      subst hi
      exact runAttempt_sleep oracle kwargs prompt multiTurn i hout
    · intro hlt
      exact requestAux_next oracle kwargs prompt multiTurn maxTryTimes 0 j a hj hout hlt
  · intro oracle kwargs prompt multiTurn e he
    refine ⟨by cases e; rfl, ?_⟩
    exact requestAux_error_all oracle kwargs prompt multiTurn maxTryTimes 0 e he
  · intro key
    cases key with
    | none => simp [dashscopeInit]
    | some s =>
      by_cases hs : s = []
      · simp [dashscopeInit, hs]
      · simp [dashscopeInit, hs]

/-- Witness for C8: a failing run retries with backoff and ends in the
terminal error; a missing credential fails construction. -/
theorem C8_witness :
    (request oracleExn emptyCfg [strHi] false).2[0]? = some attemptFail0 ∧
    attemptFail0.outcome = none ∧
    attemptFail0.sleep = some 1 ∧
    0 + 1 < maxTryTimes ∧
    0 + 1 < (request oracleExn emptyCfg [strHi] false).2.length ∧
    (request oracleExn emptyCfg [strHi] false).1 =
      Except.error RequestError.connectionError ∧
    (∀ a ∈ (request oracleExn emptyCfg [strHi] false).2, a.outcome = none) ∧
    dashscopeInit none = Except.error ConfigError.missingApiKey := by
  have h1 := C8_propagation.1 oracleExn emptyCfg [strHi] false 0 attemptFail0
    (by decide) (by decide)
  have h2 := C8_propagation.2.1 oracleExn emptyCfg [strHi] false
    RequestError.connectionError (by decide)
  have h3 := (C8_propagation.2.2 none).mpr (Or.inl rfl)
  exact ⟨by decide, by decide, h1.1, by decide, h1.2 (by decide), by decide,
    h2.2, h3⟩

/-- C9: `max_tokens` defaults to 1024 when neither the model arguments nor the
extra arguments set it, and for every listed option key an explicit
model-argument value takes precedence over the extra-argument value. -/
theorem C9_defaults (args : ModelArgs) (extra : ExtraArgs) :
    ((args.get GKey.max_tokens = none → extra.get GKey.max_tokens = none →
      (setGenerationArgs args extra).1.get GKey.max_tokens =
        some (GVal.int 1024))) ∧
    (∀ k ∈ optionKeys, ∀ v : GVal, args.get k = some v →
      (setGenerationArgs args extra).1.get k = some v) := by
  constructor
  · intro ha he
    rw [setGenerationArgs_get args extra GKey.max_tokens (by decide)]
    simp [resolveKey, ha, he]
  · intro k hk v hv
    have hks : k ≠ GKey.seed := by
      intro h
      rw [h] at hk
      exact absurd hk (by decide)
    rw [setGenerationArgs_get args extra k hks]
    simp [resolveKey, hv]

/-- Witness for C9: the 1024 default and temperature precedence. -/
theorem C9_witness :
    argsNone.get GKey.max_tokens = none ∧
    extra0.get GKey.max_tokens = none ∧
    (setGenerationArgs argsNone extra0).1.get GKey.max_tokens =
      some (GVal.int 1024) ∧
    GKey.temperature ∈ optionKeys ∧
    argsT7.get GKey.temperature = some (GVal.int 7) ∧
    extraT9.get GKey.temperature = some (GVal.int 9) ∧
    (setGenerationArgs argsT7 extraT9).1.get GKey.temperature =
      some (GVal.int 7) := by
  have h1 := (C9_defaults argsNone extra0).1 (by decide) (by decide)
  have h2 := (C9_defaults argsT7 extraT9).2 GKey.temperature (by decide)
    (GVal.int 7) (by decide)
  exact ⟨by decide, by decide, h1, by decide, by decide, by decide, h2⟩

/-- C10: with `multi_turn = True`, `request` reads only `prompt[0]`; any
further batch elements are ignored entirely — the result, the attempt log
(hence all messages and all calls), and the `generation` output coincide with
those for the one-element batch. -/
theorem C10_ignores_tail (oracle : Nat → CallResult) (kwargs : GenCfg)
    (p : Str) (rest : List Str) :
    request oracle kwargs (p :: rest) true = request oracle kwargs [p] true ∧
    generation oracle kwargs true (p :: rest) = generation oracle kwargs true [p] := by
  have hreq : ∀ (tries k : Nat),
      requestAux oracle kwargs (p :: rest) true k tries =
        requestAux oracle kwargs [p] true k tries := by
    intro tries
    induction tries with
    | zero => intro k; rfl
    | succ tries ih =>
      intro k
      have hatt : runAttempt oracle kwargs (p :: rest) true k =
          runAttempt oracle kwargs [p] true k := rfl
      simp only [requestAux, hatt, ih]
  constructor
  · exact hreq maxTryTimes 0
  · simp only [generation, request, hreq maxTryTimes 0]
